import Mathlib

/-!
Verification development for the tfvar-export variable synchronization tool.

The Rust sources are shallowly embedded:
  * serde_json values (the subset of behaviour the tool relies on) as the
    inductive type `Value`, with serde_json's default `BTreeMap` object
    representation (keys sorted, later duplicate keys overriding earlier ones),
    its compact serializer and its parser (no exponent literals: none of the
    values handled by the tool use them);
  * pure cores of src/utils/get_outputs.rs, src/utils/read_export_list.rs,
    src/utils/construct_export_value.rs,
    src/terraform_api/check_variable_status.rs,
    src/terraform_api/register_variable.rs and src/main.rs.
Rust panics (unwrap / expect / assert) are modelled as `none` of an `Option`
result; file and HTTP I/O is abstracted to the data it transports.
-/

namespace TfvarExport

/-- serde_json JSON value. Numbers are kept in decimal form: `num m p`
denotes the number m / 10^p written with exactly p fractional digits, so
`num 0 0` is the integer literal 0 while `num (-12345) 4` is -1.2345.
serde_json roundtrips such short decimal literals exactly (shortest-form f64
printing), so this decimal model is faithful for the values the tool handles.
Objects are association lists; serde_json's default map is a BTreeMap, so a
parsed object is sorted by key and duplicate-free. -/
inductive Value where
  | null : Value
  | bool : Bool → Value
  | num : Int → Nat → Value
  | str : String → Value
  | arr : List Value → Value
  | obj : List (String × Value) → Value

/-- serde_json indexing val["key"]: member lookup on objects, returning
Null for a missing member or a non-object receiver. -/
def jIndex (v : Value) (key : String) : Value :=
  match v with
  | .obj kvs =>
    match kvs.lookup key with
    | some w => w
    | none => .null
  | _ => .null

/-- serde_json Value::as_str. -/
def asStr (v : Value) : Option String :=
  match v with
  | .str s => some s
  | _ => none

/-- serde_json PartialEq between a Value and a Bool literal: only a Bool
value compares equal, anything else (including Null) is unequal. -/
def valueEqBool (v : Value) (b : Bool) : Bool :=
  match v with
  | .bool b2 => b2 == b
  | _ => false

/-! Type probes of serde_json used by register_variable.rs. -/

def is_boolean : Value → Bool
  | .bool _ => true
  | _ => false

def is_string : Value → Bool
  | .str _ => true
  | _ => false

def is_number : Value → Bool
  | .num _ _ => true
  | _ => false

/-- Value::is_f64: the number is stored as a float (here: it has fractional
digits). -/
def is_f64 : Value → Bool
  | .num _ (_ + 1) => true
  | _ => false

/-- Value::is_i64: an integer representable as i64. -/
def is_i64 : Value → Bool
  | .num m 0 => decide (-(2 ^ 63) ≤ m ∧ m < 2 ^ 63)
  | _ => false

/-- Value::is_u64: an integer representable as u64. -/
def is_u64 : Value → Bool
  | .num m 0 => decide (0 ≤ m ∧ m < 2 ^ 64)
  | _ => false

/-! ## Serialization (serde_json compact `to_string`) -/

def hexDigit (n : Nat) : Char :=
  if n < 10 then Char.ofNat (48 + n) else Char.ofNat (87 + n)

/-- Escape one character of a JSON string literal the way serde_json does. -/
def escChar (c : Char) : List Char :=
  if c = '"' then ['\\', '"']
  else if c = '\\' then ['\\', '\\']
  else if c = '\n' then ['\\', 'n']
  else if c = '\t' then ['\\', 't']
  else if c = '\r' then ['\\', 'r']
  else if c = '\x08' then ['\\', 'b']
  else if c = '\x0c' then ['\\', 'f']
  else if c.toNat < 32 then
    ['\\', 'u', '0', '0', hexDigit (c.toNat / 16), hexDigit (c.toNat % 16)]
  else [c]

def natDigitsAux : Nat → Nat → List Char → List Char
  | 0, _, acc => acc
  | _ + 1, 0, acc => acc
  | fuel + 1, n, acc => natDigitsAux fuel (n / 10) (Char.ofNat (48 + n % 10) :: acc)

/-- Decimal digits of a natural number, most significant first. -/
def natChars (n : Nat) : List Char :=
  if n = 0 then ['0'] else natDigitsAux (n + 1) n []

/-- Decimal rendering of `num m p` (see `Value.num`): the digits of |m| with a
decimal point inserted before the last p digits, and a leading minus sign for
negative m. -/
def numChars (m : Int) (p : Nat) : List Char :=
  let ds := natChars m.natAbs
  let ds := List.replicate (p + 1 - ds.length) '0' ++ ds
  let core :=
    if p = 0 then ds
    else ds.take (ds.length - p) ++ '.' :: ds.drop (ds.length - p)
  if m < 0 then '-' :: core else core

/-- JSON string literal (with surrounding quotes) for s. -/
def strLitChars (s : String) : List Char :=
  '"' :: (s.data.flatMap escChar ++ ['"'])

mutual

/-- serde_json compact serialization of a value, as a character list. -/
def serValue : Value → List Char
  | .null => "null".data
  | .bool b => if b then "true".data else "false".data
  | .num m p => numChars m p
  | .str s => strLitChars s
  | .arr xs => '[' :: (serArr xs ++ [']'])
  | .obj kvs => '\x7b' :: (serObj kvs ++ ['\x7d'])

def serArr : List Value → List Char
  | [] => []
  | [x] => serValue x
  | x :: y :: xs => serValue x ++ ',' :: serArr (y :: xs)

def serObj : List (String × Value) → List Char
  | [] => []
  | [(k, v)] => strLitChars k ++ ':' :: serValue v
  | (k, v) :: p :: kvs => strLitChars k ++ ':' :: serValue v ++ ',' :: serObj (p :: kvs)

end

/-- serde_json Value::to_string (compact form). -/
def toJsonString (v : Value) : String :=
  String.mk (serValue v)

/-! ## Parsing (serde_json `from_str`) -/

def isWs (c : Char) : Bool :=
  c = ' ' || c = '\n' || c = '\t' || c = '\r'

def skipWs : List Char → List Char
  | [] => []
  | c :: cs => if isWs c then skipWs cs else c :: cs

def isDigit (c : Char) : Bool :=
  48 ≤ c.toNat && c.toNat ≤ 57

def digitVal (c : Char) : Nat := c.toNat - 48

def hexVal (c : Char) : Option Nat :=
  if 48 ≤ c.toNat && c.toNat ≤ 57 then some (c.toNat - 48)
  else if 97 ≤ c.toNat && c.toNat ≤ 102 then some (c.toNat - 87)
  else if 65 ≤ c.toNat && c.toNat ≤ 70 then some (c.toNat - 55)
  else none

/-- Body of a JSON string literal (after the opening quote); returns the
decoded characters and the input after the closing quote. -/
def parseStrChars : Nat → List Char → List Char → Option (List Char × List Char)
  | 0, _, _ => none
  | fuel + 1, cs, acc =>
    match cs with
    | [] => none
    | '"' :: rest => some (acc.reverse, rest)
    | '\\' :: e :: rest =>
      match e with
      | '"' => parseStrChars fuel rest ('"' :: acc)
      | '\\' => parseStrChars fuel rest ('\\' :: acc)
      | '/' => parseStrChars fuel rest ('/' :: acc)
      | 'n' => parseStrChars fuel rest ('\n' :: acc)
      | 't' => parseStrChars fuel rest ('\t' :: acc)
      | 'r' => parseStrChars fuel rest ('\r' :: acc)
      | 'b' => parseStrChars fuel rest ('\x08' :: acc)
      | 'f' => parseStrChars fuel rest ('\x0c' :: acc)
      | 'u' =>
        match rest with
        | h1 :: h2 :: h3 :: h4 :: rest2 =>
          match hexVal h1, hexVal h2, hexVal h3, hexVal h4 with
          | some a, some b, some c, some d =>
            let n := ((a * 16 + b) * 16 + c) * 16 + d
            if h : n < 0xd800 then
              parseStrChars fuel rest2 (Char.ofNatAux n (Or.inl h) :: acc)
            else if h2 : 0xdfff < n ∧ n < 0x110000 then
              parseStrChars fuel rest2 (Char.ofNatAux n (Or.inr h2) :: acc)
            else none
          | _, _, _, _ => none
        | _ => none
      | _ => none
    | c :: rest => parseStrChars fuel rest (c :: acc)

/-- Leading run of decimal digits. -/
def takeDigits : List Char → List Char × List Char
  | [] => ([], [])
  | c :: cs =>
    if isDigit c then
      let (ds, rest) := takeDigits cs
      (c :: ds, rest)
    else ([], c :: cs)

def digitsToNat (ds : List Char) : Nat :=
  ds.foldl (fun a c => a * 10 + digitVal c) 0

/-- Digits (and an optional fractional part) of a JSON number literal whose
leading minus sign, if any, has already been consumed. -/
def parseNumCore (neg : Bool) (cs1 : List Char) : Option (Value × List Char) :=
  let (ids, cs2) := takeDigits cs1
  if ids.isEmpty then none
  else
    match cs2 with
    | '.' :: cs3 =>
      let (fds, cs4) := takeDigits cs3
      if fds.isEmpty then none
      else
        let mag : Nat := digitsToNat (ids ++ fds)
        some (.num (if neg then -(mag : Int) else (mag : Int)) fds.length, cs4)
    | _ =>
      let mag : Nat := digitsToNat ids
      some (.num (if neg then -(mag : Int) else (mag : Int)) 0, cs2)

/-- JSON number literal: optional minus sign, integer digits, optional
fractional digits (exponents are not modelled; the tool never produces
them). -/
def parseNum : List Char → Option (Value × List Char)
  | '-' :: tl => parseNumCore true tl
  | cs => parseNumCore false cs

/-- Lexicographic comparison of character lists by code point. On UTF-8
strings this coincides with Rust's byte-wise String ordering (UTF-8 preserves
code-point order), i.e. the BTreeMap key order. -/
def charListLt : List Char → List Char → Bool
  | _, [] => false
  | [], _ :: _ => true
  | a :: as, b :: bs =>
    if a.toNat < b.toNat then true
    else if b.toNat < a.toNat then false
    else charListLt as bs

/-- Rust String ordering (used by BTreeMap). -/
def strLt (a b : String) : Bool :=
  charListLt a.data b.data

/-- BTreeMap::insert on a key-sorted association list: keep the list sorted
and replace the value when the key is already bound. -/
def insertSorted (k : String) (v : Value) : List (String × Value) → List (String × Value)
  | [] => [(k, v)]
  | (k1, v1) :: rest =>
    if strLt k k1 then (k, v) :: (k1, v1) :: rest
    else if k = k1 then (k, v) :: rest
    else (k1, v1) :: insertSorted k v rest

mutual

/-- One JSON value, skipping leading whitespace; returns the rest of the
input. Fuel bounds the recursion depth (callers supply more fuel than the
input length, which suffices since every nesting level consumes input). -/
def parseVal : Nat → List Char → Option (Value × List Char)
  | 0, _ => none
  | fuel + 1, cs =>
    match skipWs cs with
    | 'n' :: 'u' :: 'l' :: 'l' :: rest => some (.null, rest)
    | 't' :: 'r' :: 'u' :: 'e' :: rest => some (.bool true, rest)
    | 'f' :: 'a' :: 'l' :: 's' :: 'e' :: rest => some (.bool false, rest)
    | '"' :: rest =>
      match parseStrChars (rest.length + 1) rest [] with
      | some (sd, rest2) => some (.str (String.mk sd), rest2)
      | none => none
    | '[' :: rest =>
      match skipWs rest with
      | ']' :: rest2 => some (.arr [], rest2)
      | other => parseArrRest fuel other []
    | '\x7b' :: rest =>
      match skipWs rest with
      | '\x7d' :: rest2 => some (.obj [], rest2)
      | other => parseObjRest fuel other []
    | other => parseNum other

/-- Comma-separated array items up to the closing bracket; acc holds the
items read so far in reverse. -/
def parseArrRest : Nat → List Char → List Value → Option (Value × List Char)
  | 0, _, _ => none
  | fuel + 1, cs, acc =>
    match parseVal fuel cs with
    | none => none
    | some (v, rest) =>
      match skipWs rest with
      | ',' :: rest2 => parseArrRest fuel rest2 (v :: acc)
      | ']' :: rest2 => some (.arr (v :: acc).reverse, rest2)
      | _ => none

/-- Comma-separated object members up to the closing brace; members are
inserted into a sorted map as they are read (BTreeMap semantics). -/
def parseObjRest : Nat → List Char → List (String × Value) → Option (Value × List Char)
  | 0, _, _ => none
  | fuel + 1, cs, acc =>
    match skipWs cs with
    | '"' :: rest =>
      match parseStrChars (rest.length + 1) rest [] with
      | none => none
      | some (kd, rest2) =>
        match skipWs rest2 with
        | ':' :: rest3 =>
          match parseVal fuel rest3 with
          | none => none
          | some (v, rest4) =>
            let acc2 := insertSorted (String.mk kd) v acc
            match skipWs rest4 with
            | ',' :: rest5 => parseObjRest fuel rest5 acc2
            | '\x7d' :: rest5 => some (.obj acc2, rest5)
            | _ => none
        | _ => none
    | _ => none

end

/-- serde_json from_str for a whole input: one value followed only by
whitespace. -/
def parseJson (s : String) : Option Value :=
  match parseVal (s.length + 1) s.data with
  | some (v, rest) => if (skipWs rest).isEmpty then some v else none
  | none => none

/-! ## register_variable.rs: classification and payload codec

Both create_variable and update_variable compute, for each item, the pair
is_hcl / is_string from the item's value by serde_json type probes, send the
value as data_value (a string: the literal content for string values, the
compact JSON text otherwise), and decode the server-echoed value text back.
-/

/-- The is_hcl flag computed in create_variable and update_variable (the two
loop bodies contain the identical match): false when any of the scalar type
probes fires, true otherwise. -/
def is_hcl (v : Value) : Bool :=
  if is_boolean v || is_f64 v || is_i64 v || is_number v || is_string v || is_u64 v then
    false
  else true

/-- Modelled from the spec (§4.1), for comparison with the source-side
is_hcl: a value is primitive iff it is boolean, integer, float, or string
(scalar JSON types). -/
def specIsPrimitive : Value → Bool
  | .bool _ => true
  | .num _ _ => true
  | .str _ => true
  | _ => false

/-- The data_value sent in the create/update payload: a string value
contributes its literal content (as_str), any other value its compact JSON
text (to_string). -/
def encodeValue (v : Value) : String :=
  match v with
  | .str s => s
  | _ => toJsonString v

/-- Decoding of the server-echoed value text in create_variable and
update_variable: when the original value was a string the echoed JSON string
node is taken as-is, otherwise the echoed text is parsed as JSON
(serde_json::from_str followed by .unwrap(); `none` models the unwrap panic
on unparsable text). The is_hcl flag is not consulted. -/
def decodeValue (isString : Bool) (raw : String) : Option Value :=
  if isString then some (.str raw) else parseJson raw

/-- Round-trip property instance: decoding the wire encoding of v (with v's
own classification) recovers exactly v. -/
def RoundTrips (v : Value) : Prop :=
  decodeValue (is_string v) (encodeValue v) = some v

/-- Terraform variable Create/Update result (register_variable.rs), built
from the fields echoed by the server. -/
structure TerraformVariableRegistrationResult where
  variable_id : String
  variable_name : String
  variable_description : String
  value : Value

/-- The response-body handling shared by the create_variable and
update_variable loop bodies: the body is indexed at data.id, data.attributes
(key, description, value) with as_str().unwrap() on each string field, and
the value is decoded per `decodeValue`. `none` models a panic of one of the
unwraps — including the unwrap on serde_json::from_str when the echoed value
text of a non-string variable is not valid JSON. -/
def parseResponseBody (isString : Bool) (body : Value) : Option TerraformVariableRegistrationResult :=
  let d := jIndex body "data"
  let attrs := jIndex d "attributes"
  match asStr (jIndex d "id"), asStr (jIndex attrs "key"), asStr (jIndex attrs "description") with
  | some id, some key, some desc =>
    if isString then
      some ⟨id, key, desc, jIndex attrs "value"⟩
    else
      match asStr (jIndex attrs "value") with
      | none => none
      | some s =>
        match parseJson s with
        | none => none
        | some v => some ⟨id, key, desc, v⟩
  | _, _, _ => none

/-- A create/update response body of the shape the Terraform API returns
(§6): data.id, data.attributes.key/description/value. -/
def mkRespBody (id key desc : String) (value : Value) : Value :=
  .obj [("data", .obj [("attributes", .obj [("description", .str desc), ("key", .str key), ("value", value)]), ("id", .str id)])]

/-! ## register_variable.rs: the rate-limited batch loops -/

/-- The ratelimit crate limiter as configured in register_variable.rs:
Ratelimiter::builder(20, Duration::from_secs(1)).max_tokens(20)
.initial_available(20). `refill` tokens are added (capped at `maxTokens`)
once the returned back-off duration has been slept. -/
structure Ratelimiter where
  available : Nat
  maxTokens : Nat
  refill : Nat

/-- try_wait: consume a token when one is available, otherwise report the
back-off (Err) without consuming anything. -/
def tryWait (l : Ratelimiter) : Option Ratelimiter :=
  if l.available = 0 then none else some { l with available := l.available - 1 }

/-- Token state after sleeping the back-off duration returned by try_wait. -/
def refillAfterSleep (l : Ratelimiter) : Ratelimiter :=
  { l with available := min l.maxTokens (l.available + l.refill) }

/-- The limiter instance built at the top of create_variable and
update_variable. -/
def codeRatelimiter : Ratelimiter :=
  { available := 20, maxTokens := 20, refill := 20 }

/-- The `for i in 0..count` loop of create_variable / update_variable,
reduced to which items get an HTTP request (and hence a result entry):
on try_wait Ok the item is processed; on try_wait Err the code sleeps the
back-off and then runs `continue`, which advances the loop index — the
rate-limited item itself is never retried. Requests are instantaneous in
this discrete-time model; tokens are only replenished at sleep points. -/
def registerLoop {α : Type} : Ratelimiter → List α → List α
  | _, [] => []
  | l, t :: ts =>
    match tryWait l with
    | some l2 => t :: registerLoop l2 ts
    | none => registerLoop (refillAfterSleep l) ts

/-- create_variable, reduced to the list of items for which a POST is issued
and a result entry is pushed (in order). update_variable's loop is identical
except for the URL and the PATCH verb. -/
def create_variable {α : Type} (targets : List α) : List α :=
  registerLoop codeRatelimiter targets

/-! ## check_variable_status.rs -/

/-- Terraform variable status as defined in check_variable_status.rs (this
revision): variable_id holds the queried target string, variable_name the
map hit, if any. -/
structure TerraformVariableStatus where
  variable_id : String
  variable_name : Option String

/-- HashMap::insert on an association list: replace the binding when the key
exists, append otherwise (iteration order of the model keeps first-insertion
positions; the claims proved below do not depend on it). -/
def hashInsert {β : Type} (k : String) (v : β) : List (String × β) → List (String × β)
  | [] => [(k, v)]
  | (k1, v1) :: rest =>
    if k = k1 then (k, v) :: rest else (k1, v1) :: hashInsert k v rest

/-- The pure core of check_variable_status: from the listing response's data
array — one (id, key) pair per remote variable — build the HashMap
vars_already_exist by inserting id as the key and the variable name as the
value, then look every target string up in that map. -/
def check_variable_status (remoteVars : List (String × String)) (targets : List String) :
    List TerraformVariableStatus :=
  let vars_already_exist := remoteVars.foldl (fun m kv => hashInsert kv.1 kv.2 m) []
  targets.map fun t =>
    match vars_already_exist.lookup t with
    | some name => { variable_id := t, variable_name := some name }
    | none => { variable_id := t, variable_name := none }

/-! ## utils/get_outputs.rs -/

/-- serde_json's default object map (BTreeMap): fold the members as they
occur in the JSON text into a key-sorted association list, later duplicate
keys overriding earlier ones. `parseObjRest` builds objects the same way. -/
def mkObjMap (doc : List (String × Value)) : List (String × Value) :=
  doc.foldl (fun m kv => insertSorted kv.1 kv.2 m) []

/-- Association list whose keys are strictly ascending in the BTreeMap key
order. -/
def SortedKeys (l : List (String × Value)) : Prop :=
  l.Pairwise fun p q => strLt p.1 q.1 = true

/-- The pure core of get_outputs: iterate the parsed document's top-level
object (BTreeMap iteration: ascending key order), retain the members whose
"sensitive" field compares equal to the JSON boolean false, and keep each
retained member's name together with its "value" field. `doc` lists the
members in the order they occur in the JSON text. -/
def get_outputs (doc : List (String × Value)) : List (String × Value) :=
  ((mkObjMap doc).filter fun kv => valueEqBool (jIndex kv.2 "sensitive") false).map
    fun kv => (kv.1, jIndex kv.2 "value")

/-! ## utils/read_export_list.rs and utils/construct_export_value.rs -/

def isWsChar (c : Char) : Bool :=
  c = ' ' || c = '\n' || c = '\t' || c = '\r'

/-- Rust str::trim on the model's character lists. -/
def strTrim (s : String) : String :=
  String.mk (((s.data.dropWhile isWsChar).reverse.dropWhile isWsChar).reverse)

/-- Rust str::split(',') — at least one piece, empty pieces preserved. -/
def splitCommaAux : List Char → List Char → List String
  | [], acc => [String.mk acc.reverse]
  | c :: cs, acc =>
    if c = ',' then String.mk acc.reverse :: splitCommaAux cs []
    else splitCommaAux cs (c :: acc)

def splitComma (s : String) : List String :=
  splitCommaAux s.data []

def startsWithHash (s : String) : Bool :=
  match s.data with
  | '#' :: _ => true
  | _ => false

/-- The entry-collection loop of read_export_list: trim each line and skip
blank lines and lines starting with '#'. (The preceding whole-file trim only
removes blank boundary lines, which this skip drops anyway.) -/
def usableLines (lines : List String) : List String :=
  (lines.map strTrim).filter fun l => !(l.data.isEmpty || startsWithHash l)

/-- One export-list record: source output name, destination variable name,
optional description. -/
structure ExportRecord where
  source : String
  dest : String
  description : Option String

/-- One entry of the export list: split on ',', record.get(0).expect and
record.get(1).expect (none models the expect panic on a line with no
comma), record.get(2) as the optional description. -/
def parseEntry (line : String) : Option ExportRecord :=
  let record := splitComma line
  match record.get? 0, record.get? 1 with
  | some src, some dst => some ⟨src, dst, record.get? 2⟩
  | _, _ => none

/-- HashMap::insert for export records keyed by SOURCE name (read_export_list
inserts `output.insert(source, (dest, description))`): a repeated source
overwrites the earlier record, and destination names are never compared. -/
def insertRecord (r : ExportRecord) : List ExportRecord → List ExportRecord
  | [] => [r]
  | r1 :: rest =>
    if r.source = r1.source then r :: rest else r1 :: insertRecord r rest

/-- read_export_list on the file's lines. Outer none models a panic;
some none models Ok(None), which the code returns (after a warning log)
when no usable entry is found; some (some m) models Ok(Some map). -/
def read_export_list (lines : List String) : Option (Option (List ExportRecord)) :=
  let entries := usableLines lines
  if entries.length < 1 then some none
  else
    match entries.mapM parseEntry with
    | none => none
    | some recs => some (some (recs.foldl (fun m r => insertRecord r m) []))

/-- The value constructed for exporting (construct_export_value.rs). -/
structure ExportValue where
  variable_name : String
  variable_description : Option String
  value : Value

/-- The merge loop of construct_export_value: for each mapping record, look
the source name up in the output map and unwrap (none models the panic when
a source name has no output). -/
def constructRows (recs : List ExportRecord) (outs : List (String × Value)) :
    Option (List ExportValue) :=
  match recs with
  | [] => some []
  | r :: rest =>
    match outs.lookup r.source, constructRows rest outs with
    | some v, some tl => some (⟨r.dest, r.description, v⟩ :: tl)
    | _, _ => none

/-- construct_export_value: read the export list (unwrapping the Option —
none models the panic when read_export_list returned Ok(None)), read the
outputs, and merge. -/
def construct_export_value (lines : List String) (doc : List (String × Value)) :
    Option (List ExportValue) :=
  match read_export_list lines with
  | none => none
  | some none => none
  | some (some recs) => constructRows recs (get_outputs doc)

/-! ## main.rs: the per-workspace sync pass

main.rs consumes variable statuses through get_variable_id() : Option and
get_variable_name() : String (the create branch filters is_none, the update
and warning branches filter is_some), so the orchestration is embedded over
that interface. -/

/-- A variable status as main.rs consumes it. -/
structure MainStatus where
  variable_id : Option String
  variable_name : String
deriving DecidableEq

/-- Externally visible step of one workspace pass: an HTTP create call, an
HTTP update call (named by the variable), or the warning diagnostic listing
ignored existing variables. -/
inductive MainEvent where
  | createCall : String → MainEvent
  | updateCall : String → MainEvent
  | warnIgnored : List String → MainEvent
deriving DecidableEq

/-- The body of main's `for workspace_id in workspace_ids` loop: build
vars_new from the statuses without an id and (guarded by a length check)
run create_variable over it; then, if allow_update, build vars_existing from
the statuses with an id and run update_variable over it, else emit the
warning listing those names. Each phase goes through the rate-limited
register loop with its own fresh limiter. -/
def mainWorkspaceEvents (status : List MainStatus) (allow_update : Bool) : List MainEvent :=
  let vars_new := status.filter fun s => s.variable_id.isNone
  let createEvents :=
    if 0 < vars_new.length then
      (registerLoop codeRatelimiter (vars_new.map fun s => s.variable_name)).map .createCall
    else []
  let rest :=
    if allow_update then
      let vars_existing := status.filter fun s => s.variable_id.isSome
      if 0 < vars_existing.length then
        (registerLoop codeRatelimiter (vars_existing.map fun s => s.variable_name)).map .updateCall
      else []
    else
      let vars_existing := status.filter fun s => s.variable_id.isSome
      if 0 < vars_existing.length then
        [.warnIgnored (vars_existing.map fun s => s.variable_name)]
      else []
  createEvents ++ rest

/-! ## Theorems -/

theorem charToNat_inj : ∀ {a b : Char}, a.toNat = b.toNat → a = b := by
  rintro ⟨⟨⟨n1, h1⟩⟩, v1⟩ ⟨⟨⟨n2, h2⟩⟩, v2⟩ h
  simp only [Char.toNat, UInt32.toNat] at h
  subst h
  rfl

theorem charListLt_irrefl : ∀ a : List Char, charListLt a a = false := by
  intro a
  induction a with
  | nil => rfl
  | cons x xs ih =>
    simp only [charListLt]
    rw [if_neg (lt_irrefl _), if_neg (lt_irrefl _)]
    exact ih

theorem charListLt_trans :
    ∀ a b c : List Char, charListLt a b = true → charListLt b c = true →
      charListLt a c = true := by
  intro a
  induction a with
  | nil =>
    intro b c hab hbc
    cases b with
    | nil => simp [charListLt] at hab
    | cons y ys =>
      cases c with
      | nil => simp [charListLt] at hbc
      | cons z zs => simp [charListLt]
  | cons x xs ih =>
    intro b c hab hbc
    cases b with
    | nil => simp [charListLt] at hab
    | cons y ys =>
      cases c with
      | nil => simp [charListLt] at hbc
      | cons z zs =>
        simp only [charListLt] at hab hbc ⊢
        by_cases h1 : x.toNat < y.toNat
        · by_cases h2 : y.toNat < z.toNat
          · rw [if_pos (by omega)]
          · by_cases h3 : z.toNat < y.toNat
            · rw [if_neg h2, if_pos h3] at hbc
              cases hbc
            · rw [if_pos (by omega)]
        · by_cases h4 : y.toNat < x.toNat
          · rw [if_neg h1, if_pos h4] at hab
            cases hab
          · rw [if_neg h1, if_neg h4] at hab
            by_cases h2 : y.toNat < z.toNat
            · rw [if_pos (by omega)]
            · by_cases h3 : z.toNat < y.toNat
              · rw [if_neg h2, if_pos h3] at hbc
                cases hbc
              · rw [if_neg h2, if_neg h3] at hbc
                rw [if_neg (by omega), if_neg (by omega)]
                exact ih ys zs hab hbc

theorem charListLt_conn :
    ∀ a b : List Char, charListLt a b = false → charListLt b a = false → a = b := by
  intro a
  induction a with
  | nil =>
    intro b h1 _
    cases b with
    | nil => rfl
    | cons y ys => simp [charListLt] at h1
  | cons x xs ih =>
    intro b h1 h2
    cases b with
    | nil => simp [charListLt] at h2
    | cons y ys =>
      simp only [charListLt] at h1 h2
      by_cases hxy : x.toNat < y.toNat
      · rw [if_pos hxy] at h1
        cases h1
      · by_cases hyx : y.toNat < x.toNat
        · rw [if_pos hyx] at h2
          cases h2
        · rw [if_neg hxy, if_neg hyx] at h1
          rw [if_neg hyx, if_neg hxy] at h2
          rw [charToNat_inj (show x.toNat = y.toNat by omega), ih ys h1 h2]

theorem strLt_trans {a b c : String} (h1 : strLt a b = true) (h2 : strLt b c = true) :
    strLt a c = true :=
  charListLt_trans a.data b.data c.data h1 h2

theorem strLt_irrefl (a : String) : strLt a a = false :=
  charListLt_irrefl a.data

theorem strLt_ne {a b : String} (h : strLt a b = true) : a ≠ b := by
  intro hEq
  rw [hEq, strLt_irrefl] at h
  cases h

theorem strLt_conn {a b : String} (h1 : strLt a b = false) (h2 : strLt b a = false) :
    a = b := by
  cases a with
  | mk da =>
    cases b with
    | mk db => exact congrArg String.mk (charListLt_conn da db h1 h2)

theorem strLt_of_not_of_ne {a b : String} (h1 : ¬strLt a b = true) (h2 : a ≠ b) :
    strLt b a = true := by
  cases h3 : strLt b a with
  | true => rfl
  | false =>
    rw [Bool.not_eq_true] at h1
    exact absurd (strLt_conn h1 h3) h2

theorem mem_insertSorted_sub {p : String × Value} {k : String} {v : Value}
    {l : List (String × Value)} (h : p ∈ insertSorted k v l) : p = (k, v) ∨ p ∈ l := by
  induction l with
  | nil =>
    simp only [insertSorted, List.mem_singleton] at h
    exact Or.inl h
  | cons q rest ih =>
    obtain ⟨k1, v1⟩ := q
    simp only [insertSorted] at h
    split at h
    · exact (List.mem_cons.mp h).imp id id
    · split at h
      · rcases List.mem_cons.mp h with rfl | h
        · exact Or.inl rfl
        · exact Or.inr (List.mem_cons_of_mem _ h)
      · rcases List.mem_cons.mp h with rfl | h
        · exact Or.inr (List.mem_cons_self _ _)
        · exact (ih h).imp id (List.mem_cons_of_mem _)

theorem sorted_insertSorted {k : String} {v : Value} {l : List (String × Value)}
    (h : SortedKeys l) : SortedKeys (insertSorted k v l) := by
  induction l with
  | nil => simp [insertSorted, SortedKeys]
  | cons q rest ih =>
    obtain ⟨k1, v1⟩ := q
    rw [SortedKeys, List.pairwise_cons] at h
    obtain ⟨hhead, htail⟩ := h
    rw [SortedKeys]
    simp only [insertSorted]
    by_cases h1 : strLt k k1 = true
    · rw [if_pos h1]
      refine List.Pairwise.cons ?_ (List.Pairwise.cons hhead htail)
      intro q hq
      rcases List.mem_cons.mp hq with rfl | hq
      · exact h1
      · exact strLt_trans h1 (hhead q hq)
    · by_cases h2 : k = k1
      · rw [if_neg h1, if_pos h2]
        subst h2
        exact List.Pairwise.cons hhead htail
      · rw [if_neg h1, if_neg h2]
        refine List.Pairwise.cons ?_ (ih htail)
        intro q hq
        rcases mem_insertSorted_sub hq with rfl | hq
        · exact strLt_of_not_of_ne h1 h2
        · exact hhead q hq

theorem mem_insertSorted_iff {p : String × Value} {k : String} {v : Value}
    {l : List (String × Value)} (h : SortedKeys l) :
    p ∈ insertSorted k v l ↔ p = (k, v) ∨ (p ∈ l ∧ p.1 ≠ k) := by
  induction l with
  | nil => simp [insertSorted]
  | cons q rest ih =>
    obtain ⟨k1, v1⟩ := q
    rw [SortedKeys, List.pairwise_cons] at h
    obtain ⟨hhead, htail⟩ := h
    simp only [insertSorted]
    by_cases h1 : strLt k k1 = true
    · rw [if_pos h1]
      constructor
      · intro hp
        rcases List.mem_cons.mp hp with rfl | hp
        · exact Or.inl rfl
        · refine Or.inr ⟨hp, ?_⟩
          rcases List.mem_cons.mp hp with rfl | hp2
          · exact fun hEq => strLt_ne h1 hEq.symm
          · exact fun hEq => strLt_ne (strLt_trans h1 (hhead p hp2)) hEq.symm
      · rintro (rfl | ⟨hp, hne⟩)
        · exact List.mem_cons_self _ _
        · exact List.mem_cons_of_mem _ hp
    · by_cases h2 : k = k1
      · rw [if_neg h1, if_pos h2]
        subst h2
        constructor
        · intro hp
          rcases List.mem_cons.mp hp with rfl | hp
          · exact Or.inl rfl
          · exact Or.inr ⟨List.mem_cons_of_mem _ hp,
              fun hEq => strLt_ne (hhead p hp) hEq.symm⟩
        · rintro (rfl | ⟨hp, hne⟩)
          · exact List.mem_cons_self _ _
          · rcases List.mem_cons.mp hp with rfl | hp2
            · exact absurd rfl hne
            · exact List.mem_cons_of_mem _ hp2
      · rw [if_neg h1, if_neg h2]
        rw [List.mem_cons, ih htail]
        have hk1 : k1 ≠ k := fun hEq => h2 hEq.symm
        constructor
        · rintro (rfl | rfl | ⟨hp, hne⟩)
          · exact Or.inr ⟨List.mem_cons_self _ _, hk1⟩
          · exact Or.inl rfl
          · exact Or.inr ⟨List.mem_cons_of_mem _ hp, hne⟩
        · rintro (rfl | ⟨hp, hne⟩)
          · exact Or.inr (Or.inl rfl)
          · rcases List.mem_cons.mp hp with rfl | hp2
            · exact Or.inl rfl
            · exact Or.inr (Or.inr ⟨hp2, hne⟩)

theorem sortedKeys_foldIns :
    ∀ (doc : List (String × Value)) (acc : List (String × Value)), SortedKeys acc →
      SortedKeys (doc.foldl (fun m kv => insertSorted kv.1 kv.2 m) acc) := by
  intro doc
  induction doc with
  | nil => exact fun acc h => h
  | cons kv doc ih => exact fun acc h => ih _ (sorted_insertSorted h)

theorem sortedKeys_mkObjMap (doc : List (String × Value)) : SortedKeys (mkObjMap doc) :=
  sortedKeys_foldIns doc [] List.Pairwise.nil

theorem mem_foldIns :
    ∀ (doc : List (String × Value)) (acc : List (String × Value)) (p : String × Value),
      SortedKeys acc → (doc.map Prod.fst).Nodup →
      (p ∈ doc.foldl (fun m kv => insertSorted kv.1 kv.2 m) acc ↔
        (p ∈ acc ∧ p.1 ∉ doc.map Prod.fst) ∨ p ∈ doc) := by
  intro doc
  induction doc with
  | nil =>
    intro acc p hs hnd
    simp
  | cons kv doc ih =>
    intro acc p hs hnd
    obtain ⟨k, v⟩ := kv
    simp only [List.map_cons, List.nodup_cons] at hnd
    obtain ⟨hk, hnd⟩ := hnd
    simp only [List.foldl_cons]
    rw [ih (insertSorted k v acc) p (sorted_insertSorted hs) hnd,
      mem_insertSorted_iff hs]
    constructor
    · rintro (⟨rfl | ⟨hacc, hne⟩, hnotin⟩ | hdoc)
      · exact Or.inr (List.mem_cons_self _ _)
      · refine Or.inl ⟨hacc, ?_⟩
        simp only [List.map_cons, List.mem_cons]
        rintro (hEq | hmem)
        · exact hne hEq
        · exact hnotin hmem
      · exact Or.inr (List.mem_cons_of_mem _ hdoc)
    · rintro (⟨hacc, hnotin⟩ | hdoc)
      · simp only [List.map_cons, List.mem_cons] at hnotin
        push_neg at hnotin
        exact Or.inl ⟨Or.inr ⟨hacc, hnotin.1⟩, hnotin.2⟩
      · rcases List.mem_cons.mp hdoc with rfl | hdoc2
        · exact Or.inl ⟨Or.inl rfl, hk⟩
        · exact Or.inr hdoc2

theorem mem_mkObjMap {doc : List (String × Value)} {p : String × Value}
    (hnd : (doc.map Prod.fst).Nodup) : p ∈ mkObjMap doc ↔ p ∈ doc := by
  rw [mkObjMap, mem_foldIns doc [] p List.Pairwise.nil hnd]
  simp

/-- The register loop requests a subsequence of its input: order is
preserved and no item is requested twice, but items may be dropped. -/
theorem registerLoop_sublist {α : Type} (l : Ratelimiter) (xs : List α) :
    (registerLoop l xs).Sublist xs := by
  induction xs generalizing l with
  | nil => simp [registerLoop]
  | cons x xs ih =>
    rw [registerLoop]
    cases tryWait l with
    | some l2 => exact (ih l2).cons₂ x
    | none => exact (ih _).cons x

/-- C1: the claim states that create_variable (and update_variable) sends
exactly one HTTP request and returns exactly one result entry per input
item, a failed rate-limiter acquisition only delaying, never skipping, the
item. The code instead runs `continue` after sleeping the back-off, which
advances the loop index past the rate-limited item: with the code's limiter
(20 tokens initially available) and 21 pending items, item 20 is skipped —
only 20 requests are sent and 20 results returned, in spite of the
completion log reporting the full count. -/
theorem create_variable_skips_rate_limited_item :
    create_variable (List.range 21) = List.range 20 ∧
    (create_variable (List.range 21)).length = 20 ∧ (List.range 21).length = 21 := by
  refine ⟨by decide, by decide, by decide⟩

/-- C2: round-trip of the wire codec. Decoding the wire encoding of a value
with the value's own classification recovers exactly the value, for every
string (quoted or plain: the raw text is the literal string content and is
wrapped back as a string) and every boolean, and for the spec's listed
shapes: the null-bearing object, the nested array of objects, the negative
float -1.2345, and integer zero, whose canonical JSON text parses back to
the original value. -/
theorem wire_codec_round_trip :
    (∀ s : String, RoundTrips (.str s)) ∧
    (∀ b : Bool, RoundTrips (.bool b)) ∧
    RoundTrips (.obj [("a", .str "aaa"), ("b", .str "bbb"), ("c", .null)]) ∧
    RoundTrips (.arr [.obj [("name", .str "aaa"), ("type", .str "bbb")]]) ∧
    RoundTrips (.num (-12345) 4) ∧
    RoundTrips (.num 0 0) := by
  refine ⟨fun s => rfl, fun b => ?_, rfl, rfl, rfl, rfl⟩
  cases b <;> rfl

/-- C3: the claim states that a target lands in `existing` exactly when its
name is among the key attributes of the remote variables. The code builds
the vars_already_exist map with the remote variable's id as the map key and
its name as the value, then looks the target name up among the ids: a
remote variable named n_out (id var-abc) does not match the target n_out
(first conjunct), while a target equal to the id does match (second
conjunct) — contradicting the file's own comment, its test, and main.rs's
use of the status. -/
theorem check_variable_status_matches_ids_not_names :
    check_variable_status [("var-abc", "n_out")] ["n_out"] =
      [{ variable_id := "n_out", variable_name := none }] ∧
    check_variable_status [("var-abc", "n_out")] ["var-abc"] =
      [{ variable_id := "var-abc", variable_name := some "n_out" }] :=
  ⟨rfl, rfl⟩

/-- C5: the hcl flag of the outgoing payload, as computed by the identical
match in create_variable and update_variable, is the negation of the spec's
primitiveness classification for every value: false exactly on booleans,
numbers and strings, true on null, arrays and objects, determined solely by
the value's variant. -/
theorem is_hcl_negation_of_primitive :
    ∀ v : Value, is_hcl v = !specIsPrimitive v := by
  intro v
  cases v <;>
    simp [is_hcl, specIsPrimitive, is_boolean, is_number, is_string, is_f64, is_i64, is_u64]

/-- Names of the rows produced by the merge loop: one row per mapping
record, named by the record's destination. -/
theorem constructRows_names (recs : List ExportRecord) (outs : List (String × Value))
    (vs : List ExportValue) (h : constructRows recs outs = some vs) :
    vs.map (fun v => v.variable_name) = recs.map fun r => r.dest := by
  induction recs generalizing vs with
  | nil =>
    rw [constructRows] at h
    cases h
    rfl
  | cons r rest ih =>
    rw [constructRows] at h
    cases h1 : outs.lookup r.source with
    | none => rw [h1] at h; cases h
    | some v =>
      rw [h1] at h
      cases h2 : constructRows rest outs with
      | none => rw [h2] at h; cases h
      | some tl =>
        rw [h2] at h
        cases h
        simpa using ih tl h2

/-- C4 counterexample: the claim states that a mapping file yielding the
same destination name on two usable lines makes the run fail with an
InputError before any network call. On the two-line mapping a,dup / b,dup
(sources a and b both present and non-sensitive in the output document) the
embedded construct_export_value returns a successful result — two rows both
named dup — and no error of any kind is raised. -/
theorem construct_export_value_accepts_duplicate_dest :
    construct_export_value ["a,dup", "b,dup"]
      [("a", .obj [("sensitive", .bool false), ("value", .num 1 0)]),
       ("b", .obj [("sensitive", .bool false), ("value", .num 2 0)])] =
      some [{ variable_name := "dup", variable_description := none, value := .num 1 0 },
            { variable_name := "dup", variable_description := none, value := .num 2 0 }] :=
  rfl

/-- C4 amended: duplicate destination names are not rejected. Whenever the
export list reads to a record list (duplicate destinations included — only
source names are deduplicated, last write winning) and every source
resolves against the outputs, the run succeeds and yields exactly one
export value per record, named by the record's destination, so a duplicated
destination simply occurs on several rows. -/
theorem construct_export_value_keeps_duplicate_dest (lines : List String)
    (doc : List (String × Value)) (recs : List ExportRecord) (vs : List ExportValue)
    (hread : read_export_list lines = some (some recs))
    (hrows : constructRows recs (get_outputs doc) = some vs) :
    construct_export_value lines doc = some vs ∧
      vs.map (fun v => v.variable_name) = recs.map fun r => r.dest := by
  refine ⟨?_, constructRows_names recs (get_outputs doc) vs hrows⟩
  rw [construct_export_value, hread]
  exact hrows

/-- C4 witness: the amended statement applied to the duplicate-destination
mapping a,dup / b,dup. -/
theorem construct_export_value_keeps_duplicate_dest_witness :
    construct_export_value ["a,dup", "b,dup"]
      [("a", .obj [("sensitive", .bool false), ("value", .num 1 0)]),
       ("b", .obj [("sensitive", .bool false), ("value", .num 2 0)])] =
      some [{ variable_name := "dup", variable_description := none, value := .num 1 0 },
            { variable_name := "dup", variable_description := none, value := .num 2 0 }] ∧
    ([{ variable_name := "dup", variable_description := none, value := Value.num 1 0 },
      { variable_name := "dup", variable_description := none, value := Value.num 2 0 }] :
        List ExportValue).map (fun v => v.variable_name) =
      ([⟨"a", "dup", none⟩, ⟨"b", "dup", none⟩] : List ExportRecord).map (fun r => r.dest) :=
  construct_export_value_keeps_duplicate_dest ["a,dup", "b,dup"]
    [("a", .obj [("sensitive", .bool false), ("value", .num 1 0)]),
     ("b", .obj [("sensitive", .bool false), ("value", .num 2 0)])]
    [⟨"a", "dup", none⟩, ⟨"b", "dup", none⟩] _ rfl rfl

/-- C7 counterexample: the claim states that a mapping file with zero usable
records fails with a NoEntries input error. The code instead returns
Ok(None) — a success value — after logging a warning: on a file holding
only a comment line and blank lines, read_export_list evaluates to
some none (Ok(None)), not to an error. -/
theorem read_export_list_no_entries_is_ok_none :
    read_export_list ["# number_float,number_float_copy", "", "   "] = some none :=
  rfl

/-- C7 amended: a mapping whose content yields zero usable records makes
read_export_list return Ok(None) (with a warning log), and
construct_export_value then panics unwrapping that None instead of
surfacing an error value; in main.rs this abort happens after the
workspace-listing network calls but before any variable create or update
call. -/
theorem read_export_list_no_entries_panics_caller (lines : List String)
    (doc : List (String × Value)) (h : usableLines lines = []) :
    read_export_list lines = some none ∧ construct_export_value lines doc = none := by
  have hread : read_export_list lines = some none := by
    rw [read_export_list, h]
    rfl
  exact ⟨hread, by rw [construct_export_value, hread]⟩

/-- C7 witness: the amended statement applied to a one-comment-line file. -/
theorem read_export_list_no_entries_panics_caller_witness :
    read_export_list ["# only a comment"] = some none ∧
      construct_export_value ["# only a comment"] [] = none :=
  read_export_list_no_entries_panics_caller ["# only a comment"] [] rfl

/-- C8 counterexample: the claim states that a create/update response whose
echoed value text is not valid JSON (when a JSON decode is expected, the
value having been classified non-string) yields a CodecError treated as a
per-item error result rather than a crash. The code calls
serde_json::from_str(...).unwrap() on the echoed text, so on the
unparsable text "\x7b" the response handling panics — modelled as none —
and no error result exists for the item. -/
theorem parseResponseBody_panics_on_bad_json :
    parseResponseBody false (mkRespBody "var-workspace" "key1" "d" (.str "\x7b")) = none :=
  rfl

/-- C8 amended: for every response body of the API shape whose echoed value
text fails to parse as JSON while a JSON decode is expected, the response
handling of create_variable and update_variable panics (unwrap on the
serde_json::from_str error), crashing the run; no CodecError or ApiError
result is produced for the item. -/
theorem parseResponseBody_panic_on_unparsable_value (id key desc s : String)
    (h : parseJson s = none) :
    parseResponseBody false (mkRespBody id key desc (.str s)) = none := by
  simp [parseResponseBody, mkRespBody, jIndex, asStr, List.lookup, h]

/-- C8 witness: the amended statement applied to the echoed text
"not json". -/
theorem parseResponseBody_panic_on_unparsable_value_witness :
    parseResponseBody false (mkRespBody "var-1" "k" "" (.str "not json")) = none :=
  parseResponseBody_panic_on_unparsable_value "var-1" "k" "" "not json" rfl

/-- C6: with update permission disabled and a non-empty set of targets that
already exist remotely, the workspace pass issues no update call at all,
emits the warning diagnostic carrying exactly the names of the existing
targets, and the only HTTP calls are create calls for targets without a
remote id. -/
theorem main_no_update_without_permission (status : List MainStatus)
    (h : (status.filter fun s => s.variable_id.isSome) ≠ []) :
    (∀ n, MainEvent.updateCall n ∉ mainWorkspaceEvents status false) ∧
    MainEvent.warnIgnored
        ((status.filter fun s => s.variable_id.isSome).map fun s => s.variable_name) ∈
      mainWorkspaceEvents status false ∧
    (∀ n, MainEvent.createCall n ∈ mainWorkspaceEvents status false →
      n ∈ (status.filter fun s => s.variable_id.isNone).map fun s => s.variable_name) := by
  have hlen : 0 < (status.filter fun s => s.variable_id.isSome).length :=
    List.length_pos.mpr h
  refine ⟨?_, ?_, ?_⟩
  · intro n hn
    rw [mainWorkspaceEvents] at hn
    simp only [if_neg (Bool.false_ne_true), hlen, if_pos, List.mem_append] at hn
    rcases hn with hn | hn
    · rcases List.mem_ite_nil_right.mp hn with ⟨-, hn⟩
      rcases List.mem_map.mp hn with ⟨a, -, habs⟩
      cases habs
    · rcases List.mem_singleton.mp hn
  · rw [mainWorkspaceEvents]
    simp only [if_neg (Bool.false_ne_true), hlen, if_pos]
    exact List.mem_append_right _ (List.mem_singleton.mpr rfl)
  · intro n hn
    rw [mainWorkspaceEvents] at hn
    simp only [List.mem_append] at hn
    rcases hn with hn | hn
    · rcases List.mem_ite_nil_right.mp hn with ⟨-, hn⟩
      rcases List.mem_map.mp hn with ⟨a, ha, hEq⟩
      cases hEq
      exact (registerLoop_sublist _ _).subset ha
    · rcases List.mem_ite_nil_right.mp (if_neg (Bool.false_ne_true) ▸ hn) with ⟨-, habs⟩
      rcases List.mem_singleton.mp habs

/-- C6 witness: one existing variable named a, no update permission. -/
theorem main_no_update_without_permission_witness :
    MainEvent.warnIgnored ["a"] ∈
      mainWorkspaceEvents [{ variable_id := some "var-1", variable_name := "a" }] false :=
  (main_no_update_without_permission
    [{ variable_id := some "var-1", variable_name := "a" }] (by decide)).2.1

/-- C9 counterexample: the claim states that within each phase the calls are
issued one per target. With 21 to-create targets the pass issues only 20
create calls — the 21st trips the rate limiter and the loop's
sleep-then-continue skips it — so the per-target count fails. -/
theorem main_not_one_call_per_target :
    (mainWorkspaceEvents
        (List.replicate 21 { variable_id := none, variable_name := "x" }) true).length = 20 ∧
    (List.replicate 21
        ({ variable_id := none, variable_name := "x" } : MainStatus)).length = 21 := by
  exact ⟨by decide, by decide⟩

/-- C9 amended: within one workspace pass, every create call is issued
strictly before every update call, and within each phase the issued calls
follow the corresponding target list's order with at most one call per
target (the trace is an ordered subsequence of the target names; a
rate-limited target is skipped, see C1). The model is a sequential trace:
each call completes before the next is issued. -/
theorem main_creates_before_updates (status : List MainStatus) :
    ∃ cs us : List String,
      mainWorkspaceEvents status true =
        cs.map MainEvent.createCall ++ us.map MainEvent.updateCall ∧
      cs.Sublist ((status.filter fun s => s.variable_id.isNone).map fun s => s.variable_name) ∧
      us.Sublist ((status.filter fun s => s.variable_id.isSome).map fun s => s.variable_name) := by
  refine ⟨registerLoop codeRatelimiter
      ((status.filter fun s => s.variable_id.isNone).map fun s => s.variable_name),
    registerLoop codeRatelimiter
      ((status.filter fun s => s.variable_id.isSome).map fun s => s.variable_name),
    ?_, registerLoop_sublist _ _, registerLoop_sublist _ _⟩
  rw [mainWorkspaceEvents]
  simp only [eq_self_iff_true, if_true]
  by_cases h1 : 0 < (status.filter fun s => s.variable_id.isNone).length
  · by_cases h2 : 0 < (status.filter fun s => s.variable_id.isSome).length
    · rw [if_pos h1, if_pos h2]
    · rw [if_pos h1, if_neg h2]
      rw [Nat.pos_iff_ne_zero, ne_eq, not_not, List.length_eq_zero] at h2
      rw [h2]
      simp [registerLoop]
  · by_cases h2 : 0 < (status.filter fun s => s.variable_id.isSome).length
    · rw [if_neg h1, if_pos h2]
      rw [Nat.pos_iff_ne_zero, ne_eq, not_not, List.length_eq_zero] at h1
      rw [h1]
      simp [registerLoop]
    · rw [if_neg h1, if_neg h2]
      rw [Nat.pos_iff_ne_zero, ne_eq, not_not, List.length_eq_zero] at h1 h2
      rw [h1, h2]
      simp [registerLoop]

/-- C10: for every well-formed output document (its top-level members, in
JSON-text order, carrying pairwise-distinct names), get_outputs returns the
retained outputs in strictly ascending name order — hence one entry per
retained name, independent of the member order in the text — and a name is
retained, paired with its member's "value" field, exactly when the member's
"sensitive" field compares equal to the JSON boolean false (members with a
missing or non-boolean "sensitive" field are dropped, not only those
flagged true). -/
theorem get_outputs_sorted_and_filtered (doc : List (String × Value))
    (hnd : (doc.map Prod.fst).Nodup) :
    (get_outputs doc).Pairwise (fun p q => strLt p.1 q.1 = true) ∧
    ∀ (a : String) (w : Value),
      (a, w) ∈ get_outputs doc ↔
        ∃ v, (a, v) ∈ doc ∧ valueEqBool (jIndex v "sensitive") false = true ∧
          w = jIndex v "value" := by
  constructor
  · have hs := sortedKeys_mkObjMap doc
    rw [SortedKeys] at hs
    have hf := hs.sublist
      (List.filter_sublist (l := mkObjMap doc)
        (p := fun kv => valueEqBool (jIndex kv.2 "sensitive") false))
    rw [get_outputs]
    exact List.pairwise_map.mpr hf
  · intro a w
    rw [get_outputs]
    simp only [List.mem_map, List.mem_filter]
    constructor
    · rintro ⟨⟨a1, v⟩, ⟨hmem, hsens⟩, hEq⟩
      obtain ⟨rfl, rfl⟩ := Prod.mk.injEq .. |>.mp hEq
      exact ⟨v, (mem_mkObjMap hnd).mp hmem, hsens, rfl⟩
    · rintro ⟨v, hmem, hsens, rfl⟩
      exact ⟨(a, v), ⟨(mem_mkObjMap hnd).mpr hmem, hsens⟩, rfl⟩

/-- C10 witness: a document given out of name order with one true-sensitive
member and one member lacking a boolean sensitive field; the retained
entries come back sorted. -/
theorem get_outputs_sorted_and_filtered_witness :
    (get_outputs
        [("b", .obj [("sensitive", .bool false), ("value", .num 2 0)]),
         ("a", .obj [("sensitive", .bool false), ("value", .num 1 0)]),
         ("c", .obj [("sensitive", .bool true), ("value", .num 3 0)]),
         ("d", .obj [("value", .num 4 0)])]).Pairwise
      (fun p q => strLt p.1 q.1 = true) :=
  (get_outputs_sorted_and_filtered
    [("b", .obj [("sensitive", .bool false), ("value", .num 2 0)]),
     ("a", .obj [("sensitive", .bool false), ("value", .num 1 0)]),
     ("c", .obj [("sensitive", .bool true), ("value", .num 3 0)]),
     ("d", .obj [("value", .num 4 0)])] (by decide)).1

end TfvarExport
